import Mathlib

/-
Verification development for the crawl-classify-extract engine in
core/scraper/ai_bs_scraper.py and the downstream chunker in
core/worker/chunk_kb_item.py.

The Python code is shallowly embedded: pure computations become Lean
functions, the stateful crawl becomes explicit state passing over a
CrawlState record, and calls to collaborators (the OpenAI classifier,
the Playwright browser, the markdown converter, the langchain text
splitter) become function-valued parameters, since those are outside
the repository.  Fallible operations return Option or Except.
-/

set_option maxRecDepth 4096

-- ===========================================================================
-- Data model (ai_bs_scraper.py, dataclasses KBItem and CrawledLink)
-- ===========================================================================

/-- Embedding of the dataclass `KBItem(title, content, content_type,
source_url, author)`. -/
structure KBItem where
  title : String
  content : String
  content_type : String
  source_url : String
  author : Option String
deriving DecidableEq, Repr

/-- Shape of the dictionary produced by `KBItem.to_dict`: the fields of
`asdict(self)` after `d.update` has overwritten `author` and added
`user_id`. -/
structure KBItemDict where
  title : String
  content : String
  content_type : String
  source_url : String
  author : String
  user_id : String
deriving DecidableEq, Repr

/-- Embedding of `KBItem.to_dict`: `d = asdict(self)` followed by
`d.update(\x7b"author": "", "user_id": ""\x7d)`, so the serialized author is
always the empty string and a `user_id` field equal to the empty string is
always present, whatever the dataclass author field held. -/
def KBItem.to_dict (it : KBItem) : KBItemDict :=
  { title := it.title
    content := it.content
    content_type := it.content_type
    source_url := it.source_url
    author := ""
    user_id := "" }

/-- Embedding of the dataclass `CrawledLink(link, link_type,
matches_what_the_user_wants, extracted_data)`.  The `extracted_data`
field is declared `Optional[Dict[str, Any]] = None` in the source and is
never assigned anywhere in the program, so it is embedded with an opaque
payload type. -/
structure CrawledLink where
  link : String
  link_type : String
  matches_what_the_user_wants : Bool
  extracted_data : Option Unit
deriving DecidableEq, Repr

-- ===========================================================================
-- chunk_kb_item (core/worker/chunk_kb_item.py)
-- ===========================================================================

/-- `DEFAULT_CHUNK_SIZE = 2000` in chunk_kb_item.py. -/
def DEFAULT_CHUNK_SIZE : Nat := 2000

/-- `DEFAULT_CHUNK_OVERLAP = 200` in chunk_kb_item.py. -/
def DEFAULT_CHUNK_OVERLAP : Nat := 200

/-- Embedding of `chunk_kb_item(kb_item, chunk_size, chunk_overlap)`.
The langchain `RecursiveCharacterTextSplitter` is an external library;
its `split_text` method is passed in as the function `split_text`, taking
the `chunk_size` and `chunk_overlap` constructor arguments followed by the
text.  `len(kb_item.content) <= chunk_size` is the Python guard; on the
long branch every produced chunk keeps `content_type`, `source_url` and
`author` and gets the title suffix `" (Part i+1)"` from the enumerated
chunk index. -/
def chunk_kb_item (split_text : Nat → Nat → String → List String)
    (kb_item : KBItem) (chunk_size chunk_overlap : Nat) : List KBItem :=
  if kb_item.content.length ≤ chunk_size then [kb_item]
  else
    (split_text chunk_size chunk_overlap kb_item.content).enum.map fun p =>
      { title := kb_item.title ++ " (Part " ++ toString (p.1 + 1) ++ ")"
        content := p.2
        content_type := kb_item.content_type
        source_url := kb_item.source_url
        author := kb_item.author }

-- ===========================================================================
-- Link discovery: AiScraper._extract_links (ai_bs_scraper.py lines 222-297)
-- ===========================================================================

/-- `full_url.split('#')[0]`: everything before the first `#`. -/
def stripFragment (s : String) : String := ⟨s.data.takeWhile (· ≠ '#')⟩

/-- Python `s.startswith(p)`. -/
def startsWithStr (p s : String) : Bool := p.data.isPrefixOf s.data

/-- Tier 1 of `_extract_links`: the scan over `soup.find_all('a', href=True)`.
The library calls `urljoin` (urllib) and `netloc` (`urlparse(u).netloc`) are
passed in as functions.  `hrefs` is the list of `href` attributes of the
anchor tags in document order; the Python `set` is embedded as a list to
which a URL is appended only when not already present, so its length is the
cardinality of the set. -/
def tier1Links (urljoin : String → String → String) (netloc : String → String)
    (base_domain base_url : String) (hrefs : List String) : List String :=
  hrefs.foldl
    (fun links href =>
      let full := stripFragment (urljoin base_url href)
      if netloc full = base_domain ∧ startsWithStr "http" full ∧ full ∉ links then
        links ++ [full]
      else links)
    []

/-- Outcome of the unguarded `self._page.goto(base_url, ...)` at the top of a
Tier-2 iteration (line 247): `failed` means the call raised. -/
inductive PWGoto where
  | ok
  | failed
deriving DecidableEq, Repr

/-- Outcome of the eligibility block (lines 249-262), which is wrapped in
`try ... except Exception: break`.
`countZero`: `locator.count() == 0`, so the loop breaks;
`raiseExc`: one of the locator calls raised, so the loop breaks;
`skip`: the element is an anchor, invisible, or has no pointer cursor;
`proceed`: the element is probed by clicking. -/
inductive EligOutcome where
  | countZero
  | raiseExc
  | skip
  | proceed
deriving DecidableEq, Repr

/-- Outcome of `self._page.wait_for_url(...)` inside the `except PWTimeout`
handler: success with the navigated URL, a `PWTimeout` (caught by the inner
`except PWTimeout: pass`), or a non-timeout Playwright error (uncaught). -/
inductive WaitUrlRes where
  | ok (u : String)
  | timeout
  | err
deriving DecidableEq, Repr

/-- Outcome of `self._page.goto(base_url, ...)` at line 288, inside the inner
try of the `except PWTimeout` handler: success, a `PWTimeout` (caught by
`except PWTimeout: pass`), or a non-timeout error (uncaught: the sibling
`except Exception` of the outer try does not cover its own handlers). -/
inductive GotoBackRes where
  | ok
  | timeout
  | err
deriving DecidableEq, Repr

/-- Outcome of the click block (lines 266-293).
`newTab u`: the click opened a new page whose settled URL is `u`;
`timeoutPath w g`: a `PWTimeout` was raised (no new tab, or the click or the
load-settle wait timed out), transferring control to the `except PWTimeout`
handler, whose own operations behave as `w` and `g`;
`otherExc`: a non-timeout exception, caught by `except Exception` and
logged as a warning. -/
inductive ClickOutcome where
  | newTab (u : String)
  | timeoutPath (w : WaitUrlRes) (g : GotoBackRes)
  | otherExc
deriving DecidableEq, Repr

/-- The observable behavior of the browser during one Tier-2 loop iteration:
whether `self._page.url != base_url` at the loop top, how the unguarded
restore `goto` behaves if it runs, how the eligibility block behaves, and
how the click block behaves if the element is probed. -/
structure IterBehavior where
  urlDiffers : Bool
  gotoTop : PWGoto
  elig : EligOutcome
  click : ClickOutcome
deriving DecidableEq, Repr

/-- `links.add(u)` guarded by `urlparse(u).netloc == self.base_domain`
(lines 276-278 and 285-287). -/
def addIfSameDomain (netloc : String → String) (base_domain : String)
    (u : String) (links : List String) : List String :=
  if netloc u = base_domain ∧ u ∉ links then links ++ [u] else links

/-- Tier 2 of `_extract_links` (the `while True` loop over `button`
elements), driven by the finite list of per-iteration browser behaviors;
an exhausted behavior list acts like `locator.count() == 0`.  The result is
`Except.error ()` exactly when an exception escapes the loop body: the
unguarded top-of-iteration `goto`, a non-timeout error from `wait_for_url`,
or a non-timeout error from the restore `goto` inside the `except PWTimeout`
handler. -/
def tier2Probe (netloc : String → String) (base_domain : String) :
    List IterBehavior → List String → Except Unit (List String)
  | [], links => Except.ok links
  | b :: rest, links =>
    if b.urlDiffers ∧ b.gotoTop = PWGoto.failed then Except.error ()
    else
      match b.elig with
      | EligOutcome.countZero => Except.ok links
      | EligOutcome.raiseExc => Except.ok links
      | EligOutcome.skip => tier2Probe netloc base_domain rest links
      | EligOutcome.proceed =>
        match b.click with
        | ClickOutcome.newTab u =>
          tier2Probe netloc base_domain rest
            (addIfSameDomain netloc base_domain (stripFragment u) links)
        | ClickOutcome.otherExc => tier2Probe netloc base_domain rest links
        | ClickOutcome.timeoutPath w g =>
          match w with
          | WaitUrlRes.ok u =>
            let links := addIfSameDomain netloc base_domain (stripFragment u) links
            match g with
            | GotoBackRes.ok => tier2Probe netloc base_domain rest links
            | GotoBackRes.timeout => tier2Probe netloc base_domain rest links
            | GotoBackRes.err => Except.error ()
          | WaitUrlRes.timeout => tier2Probe netloc base_domain rest links
          | WaitUrlRes.err => Except.error ()

/-- Embedding of `AiScraper._extract_links`: Tier 1 over the anchor hrefs,
the `if len(links) > 5: return list(links)` early return, then Tier 2.
The Bool in the result records whether Tier 2 executed. -/
def extract_links (urljoin : String → String → String)
    (netloc : String → String) (base_domain base_url : String)
    (hrefs : List String) (behaviors : List IterBehavior) :
    Except Unit (List String × Bool) :=
  let links := tier1Links urljoin netloc base_domain base_url hrefs
  if 5 < links.length then Except.ok (links, false)
  else (tier2Probe netloc base_domain behaviors links).map (fun l => (l, true))

-- ===========================================================================
-- Crawl orchestrator: AiScraper._run_crawl and AiScraper.run
-- ===========================================================================

/-- The JSON object returned by a successful `_call_openai_classifier` call:
a dictionary whose `linkType` and `matchesWhatTheUserWants` keys may be
absent (read with `.get(key, default)` in the source). -/
structure SingleCls where
  linkType : Option String
  matchesWhatTheUserWants : Option Bool
deriving DecidableEq, Repr

/-- One element of the `classifications` list returned by a successful
`_batch_call_openai_classifier` call; all three keys are read with `.get`
and may be absent. -/
structure BatchCls where
  link : Option String
  linkType : Option String
  matchesWhatTheUserWants : Option Bool
deriving DecidableEq, Repr

/-- Observable events of one run, recorded in order: the single-URL
classifier call for the seed, each batch classifier call with the submitted
batch, each page fetched for link discovery, each append of a URL to the
directory frontier from a batch result, and each Content Extractor
invocation. -/
inductive Event where
  | classifyOneEv (url : String)
  | classifyManyEv (urls : List String)
  | discoverEv (url : String)
  | frontierEv (url : String)
  | extractEv (url : String)
deriving DecidableEq, Repr

/-- The external collaborators of the orchestrator, embedded as functions:
`classifyOne` is `_call_openai_classifier` (none = the call raised, or the
response object was falsy); `classifyMany` is `_batch_call_openai_classifier`
(none = the call raised); `discover` is `_fetch_page` composed with
`_extract_links` (none = the fetch returned no soup); `extract` is
`_extract_post` (none = a Playwright error was caught). -/
structure Collab where
  classifyOne : String → Option SingleCls
  classifyMany : List String → Option (List BatchCls)
  discover : String → Option (List String)
  extract : String → Option KBItem

/-- The orchestrator state: `self.crawled_links` (a Python dict, embedded as
an insertion-ordered association list with unique keys), `self.visited_urls`
(a Python set, embedded as a duplicate-free list), and the event trace. -/
structure CrawlState where
  crawled : List (String × CrawledLink)
  visited : List String
  trace : List Event
deriving DecidableEq, Repr

/-- `self.crawled_links[k] = v` on the association-list embedding of the
dict: replace the value in place if the key is present, else append the
entry at the end, exactly the Python dict assignment semantics. -/
def dictInsert : List (String × CrawledLink) → String → CrawledLink →
    List (String × CrawledLink)
  | [], k, v => [(k, v)]
  | p :: rest, k, v =>
    if p.1 = k then (k, v) :: rest else p :: dictInsert rest k v

/-- `self.crawled_links.get(k)` on the association-list embedding. -/
def dictLookup : List (String × CrawledLink) → String → Option CrawledLink
  | [], _ => none
  | p :: rest, k => if p.1 = k then some p.2 else dictLookup rest k

/-- Whether an event is an invocation of the Classification Oracle that
includes the URL `u`: the single-URL call for `u`, or a batch call whose
submitted batch contains `u`. -/
def callsFor (u : String) : Event → Bool
  | Event.classifyOneEv v => decide (v = u)
  | Event.classifyManyEv vs => decide (u ∈ vs)
  | _ => false

/-- How many Classification Oracle invocations in the trace include `u`. -/
def callCount (tr : List Event) (u : String) : Nat :=
  (tr.filter (callsFor u)).length

/-- The inner loop of lines 339-342: for each discovered link, if it is not
in the visited set, add it to the visited set and to the set of links to
classify.  Both sets are embedded as duplicate-free lists extended on the
right. -/
def addNewLinks : List String → List String → List String →
    List String × List String
  | [], visited, newl => (visited, newl)
  | l :: rest, visited, newl =>
    if l ∈ visited then addNewLinks rest visited newl
    else addNewLinks rest (visited ++ [l]) (newl ++ [l])

/-- Lines 334-342: fetch every directory queued for this round and collect
the links that were not yet visited.  `newl` accumulates the
`unclassified_links` set. -/
def explorePhase (co : Collab) : List String → CrawlState → List String →
    CrawlState × List String
  | [], st, newl => (st, newl)
  | url :: rest, st, newl =>
    let st := { st with trace := st.trace ++ [Event.discoverEv url] }
    match co.discover url with
    | none => explorePhase co rest st newl
    | some links =>
      let (visited, newl) := addNewLinks links st.visited newl
      explorePhase co rest { st with visited := visited } newl

/-- Structural helper for `chunks10`: the first argument is a fuel that is
at least the length of the list, so the fuel-exhausted case is unreachable. -/
def chunksGo : Nat → List String → List (List String)
  | _, [] => []
  | 0, _ :: _ => []
  | n + 1, x :: xs => ((x :: xs).take 10) :: chunksGo n ((x :: xs).drop 10)

/-- `link_list[i:i+10]` slicing of line 352-353: split a list into
consecutive batches of ten. -/
def chunks10 (l : List String) : List (List String) := chunksGo l.length l

/-- The `CrawledLink` constructed at lines 361-365 from one batch response
element, with the `.get` defaults applied. -/
def mkCrawledLink (l : String) (c : BatchCls) : CrawledLink :=
  ⟨l, c.linkType.getD "unknown", c.matchesWhatTheUserWants.getD false, none⟩

/-- Lines 357-370, one response element: read `link` with `.get` and skip
falsy values (absent key or empty string), store the `CrawledLink` built
with the defaulted `linkType` and `matchesWhatTheUserWants`, and append the
URL to the next-round frontier when its type is `directory` (the source
tests `crawled_link.link_type == 'directory'`, which is definitionally the
defaulted `linkType`). -/
def applyCls (c : BatchCls) (acc : CrawlState × List String) :
    CrawlState × List String :=
  match c.link with
  | none => acc
  | some l =>
    if l = "" then acc
    else if c.linkType.getD "unknown" = "directory" then
      ({ acc.1 with crawled := dictInsert acc.1.crawled l (mkCrawledLink l c),
                    trace := acc.1.trace ++ [Event.frontierEv l] },
       acc.2 ++ [l])
    else
      ({ acc.1 with crawled := dictInsert acc.1.crawled l (mkCrawledLink l c) },
       acc.2)

/-- Lines 353-370, one batch: invoke the batch classifier and, when it
returns a result, fold every response element into the state.  A `none`
result (the call failed) changes nothing; iterating an empty response list
also changes nothing, which makes the Python truthiness guard
`if classifications:` behaviorally redundant. -/
def processBatch (co : Collab) (b : List String) (st : CrawlState)
    (dirs : List String) : CrawlState × List String :=
  let st := { st with trace := st.trace ++ [Event.classifyManyEv b] }
  match co.classifyMany b with
  | none => (st, dirs)
  | some cls => cls.foldl (fun acc c => applyCls c acc) (st, dirs)

/-- Fold `processBatch` over all batches of a round. -/
def processBatches (co : Collab) : List (List String) → CrawlState →
    List String → CrawlState × List String
  | [], st, dirs => (st, dirs)
  | b :: rest, st, dirs =>
    processBatches co rest (processBatch co b st dirs).1
      (processBatch co b st dirs).2

/-- One iteration of the `while dirs_to_crawl:` loop (lines 327-370):
snapshot and clear the frontier, explore every queued directory, and batch
classify the newly found links; an empty set of new links is the
`continue` at line 344-346 with an already-empty frontier. -/
def crawlRound (co : Collab) (dirs : List String) (st : CrawlState) :
    CrawlState × List String :=
  if (explorePhase co dirs st []).2 = [] then ((explorePhase co dirs st []).1, [])
  else
    processBatches co (chunks10 (explorePhase co dirs st []).2)
      (explorePhase co dirs st []).1 []

/-- The `while dirs_to_crawl:` loop, with fuel bounding the number of
rounds (every claim proved below holds for every fuel value). -/
def crawlLoop (co : Collab) : Nat → List String → CrawlState → CrawlState
  | 0, _, st => st
  | _ + 1, [], st => st
  | fuel + 1, d :: dirs, st =>
    crawlLoop co fuel (crawlRound co (d :: dirs) st).2
      (crawlRound co (d :: dirs) st).1

/-- Embedding of `AiScraper._run_crawl` (lines 299-370): classify the seed
(aborting on a falsy result), record it, mark it visited, and run the
discovery loop only when the seed is a directory. -/
def run_crawl (co : Collab) (seed : String) (fuel : Nat) : CrawlState :=
  let st0 : CrawlState := ⟨[], [], [Event.classifyOneEv seed]⟩
  match co.classifyOne seed with
  | none => st0
  | some c =>
    let cl : CrawledLink :=
      ⟨seed, c.linkType.getD "unknown", c.matchesWhatTheUserWants.getD false,
        none⟩
    let st : CrawlState := { st0 with crawled := [(seed, cl)],
                                      visited := [seed] }
    if cl.link_type ≠ "directory" then st
    else crawlLoop co fuel [seed] st

/-- Lines 384-387: the URLs the AI classified as relevant posts, read from
the dict values in insertion order. -/
def postLinks (st : CrawlState) : List String :=
  ((st.crawled.map (·.2)).filter
    (fun l => decide (l.link_type = "post") &&
      l.matches_what_the_user_wants)).map (·.link)

/-- Lines 391-395: invoke the Content Extractor on every candidate post and
append the item when one is returned (`if item:` on an `Optional[KBItem]`
holds exactly when the result is not None, since a `KBItem` instance is
always truthy). -/
def extractPhase (co : Collab) : List String → CrawlState → List KBItem →
    List KBItem × CrawlState
  | [], st, items => (items, st)
  | u :: rest, st, items =>
    let st := { st with trace := st.trace ++ [Event.extractEv u] }
    match co.extract u with
    | none => extractPhase co rest st items
    | some it => extractPhase co rest st (items ++ [it])

/-- Embedding of `AiScraper.run` (lines 372-398): crawl, filter the relevant
posts, extract each one. -/
def run_scraper (co : Collab) (seed : String) (fuel : Nat) :
    List KBItem × CrawlState :=
  let st := run_crawl co seed fuel
  extractPhase co (postLinks st) st []

-- ===========================================================================
-- Content extraction: AiScraper._extract_post (lines 401-431)
-- ===========================================================================

/-- What `_extract_post` reads from a successfully fetched page: the
`article:author` meta content if present, the text of the first `h1` or
`title` tag if present, and the serialized markup of the collected
block-level descendants of the chosen container, in document order. -/
structure FetchedPage where
  author : Option String
  titleText : Option String
  parts : List String
deriving DecidableEq, Repr

/-- Python `str.strip()`: drop whitespace from both ends. -/
def stripStr (s : String) : String :=
  ⟨((s.data.dropWhile Char.isWhitespace).reverse.dropWhile
      Char.isWhitespace).reverse⟩

/-- Embedding of `AiScraper._extract_post`: `fetchPost` is the isolated-page
fetch plus DOM walk (none = a Playwright error or timeout was caught and the
function returned None), `md` is the external `HTML2Text` conversion.  The
body is `MD_CONVERTER.handle("\n".join(parts)).strip()`; no emptiness check
is applied to it anywhere. -/
def extract_post (fetchPost : String → Option FetchedPage)
    (md : String → String) (url : String) : Option KBItem :=
  match fetchPost url with
  | none => none
  | some pg =>
    some { title := pg.titleText.getD "Untitled"
           content := stripStr (md (String.intercalate "\x0a" pg.parts))
           content_type := "blog"
           source_url := url
           author := pg.author }

-- ===========================================================================
-- Association-list dictionary lemmas
-- ===========================================================================

theorem dictLookup_insert_self (d : List (String × CrawledLink)) (k : String)
    (v : CrawledLink) : dictLookup (dictInsert d k v) k = some v := by
  induction d with
  | nil => simp [dictInsert, dictLookup]
  | cons p rest ih =>
    by_cases h : p.1 = k
    · simp [dictInsert, h, dictLookup]
    · simp [dictInsert, h, dictLookup, ih]

theorem dictLookup_insert_ne (d : List (String × CrawledLink))
    (k u : String) (v : CrawledLink) (h : u ≠ k) :
    dictLookup (dictInsert d k v) u = dictLookup d u := by
  have hk : ¬ k = u := fun hh => h hh.symm
  induction d with
  | nil => simp [dictInsert, dictLookup, hk]
  | cons p rest ih =>
    by_cases hp : p.1 = k
    · have hpu : ¬ p.1 = u := by rw [hp]; exact hk
      simp [dictInsert, hp, dictLookup, hk, hpu]
    · by_cases hu : p.1 = u
      · rw [dictInsert, if_neg hp]
        simp [dictLookup, hu]
      · rw [dictInsert, if_neg hp]
        simp [dictLookup, hu, ih]

theorem isSome_dictLookup_insert (d : List (String × CrawledLink))
    (k u : String) (v : CrawledLink)
    (h : (dictLookup (dictInsert d k v) u).isSome) :
    u = k ∨ (dictLookup d u).isSome := by
  by_cases hu : u = k
  · exact Or.inl hu
  · right
    rwa [dictLookup_insert_ne d k u v hu] at h

theorem mem_keys_dictInsert (d : List (String × CrawledLink))
    (k u : String) (v : CrawledLink)
    (h : u ∈ (dictInsert d k v).map (·.1)) :
    u ∈ d.map (·.1) ∨ u = k := by
  induction d with
  | nil => simpa [dictInsert] using h
  | cons p rest ih =>
    by_cases hp : p.1 = k
    · simp only [dictInsert, hp, if_true, List.map_cons, List.mem_cons] at h
      rcases h with h | h
      · exact Or.inr h
      · exact Or.inl (by simp [h])
    · simp only [dictInsert, hp, if_false, List.map_cons, List.mem_cons] at h
      rcases h with h | h
      · exact Or.inl (by simp [h])
      · rcases ih h with h | h
        · exact Or.inl (by simp [h])
        · exact Or.inr h

theorem keys_nodup_dictInsert (d : List (String × CrawledLink))
    (k : String) (v : CrawledLink) (h : (d.map (·.1)).Nodup) :
    ((dictInsert d k v).map (·.1)).Nodup := by
  induction d with
  | nil => simp [dictInsert]
  | cons p rest ih =>
    simp only [List.map_cons, List.nodup_cons] at h
    by_cases hp : p.1 = k
    · subst hp
      simpa [dictInsert, List.nodup_cons] using h
    · have h1 : ¬ p.1 ∈ (dictInsert rest k v).map (·.1) := by
        intro hmem
        rcases mem_keys_dictInsert rest k p.1 v hmem with hh | hh
        · exact h.1 hh
        · exact hp hh
      simp only [dictInsert, if_neg hp, List.map_cons, List.nodup_cons]
      exact ⟨h1, ih h.2⟩

theorem forall_mem_dictInsert (d : List (String × CrawledLink))
    (k : String) (v : CrawledLink) (P : String × CrawledLink → Prop)
    (hd : ∀ p ∈ d, P p) (hv : P (k, v)) :
    ∀ p ∈ dictInsert d k v, P p := by
  induction d with
  | nil => simpa [dictInsert] using hv
  | cons q rest ih =>
    by_cases hq : q.1 = k
    · intro p hp
      rw [dictInsert, if_pos hq] at hp
      rcases List.mem_cons.1 hp with h1 | h1
      · subst h1; exact hv
      · exact hd p (List.mem_cons_of_mem q h1)
    · intro p hp
      rw [dictInsert, if_neg hq] at hp
      rcases List.mem_cons.1 hp with h1 | h1
      · subst h1; exact hd _ (List.mem_cons_self _ _)
      · exact ih (fun r hr => hd r (List.mem_cons_of_mem q hr)) p h1

/-- With duplicate-free keys, an entry of the association list is what
lookup at its key returns. -/
theorem dictLookup_of_mem (d : List (String × CrawledLink))
    (p : String × CrawledLink) (hnd : (d.map (·.1)).Nodup) (hp : p ∈ d) :
    dictLookup d p.1 = some p.2 := by
  induction d with
  | nil => cases hp
  | cons q rest ih =>
    simp only [List.map_cons, List.nodup_cons] at hnd
    rcases List.mem_cons.1 hp with rfl | hp
    · simp [dictLookup]
    · have hne : q.1 ≠ p.1 := by
        intro h
        exact hnd.1 (h ▸ List.mem_map_of_mem (·.1) hp)
      simp [dictLookup, hne, ih hnd.2 hp]

-- ===========================================================================
-- Oracle call counting lemmas
-- ===========================================================================

theorem callCount_append (t s : List Event) (u : String) :
    callCount (t ++ s) u = callCount t u + callCount s u := by
  simp [callCount, List.filter_append]

theorem callCount_nil (u : String) : callCount [] u = 0 := rfl

theorem callCount_singleton (e : Event) (u : String) :
    callCount [e] u = if callsFor u e then 1 else 0 := by
  by_cases h : callsFor u e <;> simp [callCount, List.filter, h]

theorem callCount_le_length (tr : List Event) (u : String) :
    callCount tr u ≤ tr.length :=
  List.length_filter_le _ _

theorem one_le_callCount_of_mem {tr : List Event} {e : Event} {u : String}
    (he : e ∈ tr) (hc : callsFor u e = true) : 1 ≤ callCount tr u := by
  have h1 : e ∈ tr.filter (callsFor u) := List.mem_filter.2 ⟨he, hc⟩
  have h2 := List.length_pos.2 (List.ne_nil_of_mem h1)
  simpa [callCount] using h2

theorem two_le_length_of_mem_ne {α : Type} {l : List α} {a b : α}
    (ha : a ∈ l) (hb : b ∈ l) (hab : a ≠ b) : 2 ≤ l.length := by
  induction l with
  | nil => cases ha
  | cons c rest ih =>
    rw [List.length_cons]
    rcases List.mem_cons.1 ha with rfl | ha'
    · have hb' : b ∈ rest := by
        rcases List.mem_cons.1 hb with h | h
        · exact absurd h.symm hab
        · exact h
      have h1 : 0 < rest.length := List.length_pos.2 (List.ne_nil_of_mem hb')
      omega
    · rcases List.mem_cons.1 hb with rfl | hb'
      · have h1 : 0 < rest.length := List.length_pos.2 (List.ne_nil_of_mem ha')
        omega
      · have h1 := ih ha' hb'
        omega

theorem two_le_callCount_of_mem_ne {tr : List Event} {e1 e2 : Event}
    {u : String} (h1 : e1 ∈ tr) (h2 : e2 ∈ tr) (hne : e1 ≠ e2)
    (c1 : callsFor u e1 = true) (c2 : callsFor u e2 = true) :
    2 ≤ callCount tr u :=
  two_le_length_of_mem_ne (List.mem_filter.2 ⟨h1, c1⟩)
    (List.mem_filter.2 ⟨h2, c2⟩) hne

theorem callCount_append_of_no_calls (t s : List Event) (u : String)
    (h : ∀ e ∈ s, callsFor u e = false) :
    callCount (t ++ s) u = callCount t u := by
  rw [callCount_append]
  have hnil : s.filter (callsFor u) = [] := List.filter_eq_nil_iff.2 (by
    intro e he
    simp [h e he])
  simp [callCount, hnil]

-- ===========================================================================
-- Phase shape lemmas
-- ===========================================================================

/-- `addNewLinks` appends the same fresh suffix to the visited set and to the
set of links to classify, and keeps the visited set duplicate-free. -/
theorem addNewLinks_spec (links : List String) :
    ∀ visited newl, ∃ ext,
      addNewLinks links visited newl = (visited ++ ext, newl ++ ext) ∧
      (visited.Nodup → (visited ++ ext).Nodup) := by
  induction links with
  | nil =>
    intro visited newl
    exact ⟨[], by simp [addNewLinks], fun h => by simpa using h⟩
  | cons l rest ih =>
    intro visited newl
    by_cases hl : l ∈ visited
    · obtain ⟨ext, heq, hnd⟩ := ih visited newl
      exact ⟨ext, by simp [addNewLinks, hl, heq], hnd⟩
    · obtain ⟨ext, heq, hnd⟩ := ih (visited ++ [l]) (newl ++ [l])
      refine ⟨l :: ext, ?_, ?_⟩
      · simp only [addNewLinks, if_neg hl, heq, List.append_assoc,
          List.singleton_append]
      · intro hv
        have hv1 : (visited ++ [l]).Nodup := by
          simp [List.nodup_append, hv, hl]
        have := hnd hv1
        simpa [List.append_assoc] using this

/-- `explorePhase` leaves the dict alone, appends exactly one discover event
per queued directory, and appends the same fresh suffix to the visited set
and to the accumulated set of unclassified links. -/
theorem explorePhase_spec (co : Collab) (dirs : List String) :
    ∀ st newl, ∃ ext,
      explorePhase co dirs st newl =
        ({ st with visited := st.visited ++ ext,
                   trace := st.trace ++ dirs.map Event.discoverEv },
         newl ++ ext) ∧
      (st.visited.Nodup → (st.visited ++ ext).Nodup) := by
  induction dirs with
  | nil =>
    intro st newl
    exact ⟨[], by simp [explorePhase], fun h => by simpa using h⟩
  | cons url rest ih =>
    intro st newl
    cases hd : co.discover url with
    | none =>
      obtain ⟨ext, heq, hnd⟩ :=
        ih { st with trace := st.trace ++ [Event.discoverEv url] } newl
      refine ⟨ext, ?_, hnd⟩
      simp only [explorePhase, hd, heq, List.map_cons, List.append_assoc,
        List.singleton_append]
    | some links =>
      obtain ⟨ext0, heq0, hnd0⟩ := addNewLinks_spec links st.visited newl
      obtain ⟨ext1, heq1, hnd1⟩ :=
        ih { st with visited := st.visited ++ ext0,
                     trace := st.trace ++ [Event.discoverEv url] }
           (newl ++ ext0)
      refine ⟨ext0 ++ ext1, ?_, ?_⟩
      · simp only [explorePhase, hd, heq0, heq1, List.map_cons,
          List.append_assoc, List.singleton_append]
      · intro hv
        have := hnd1 (hnd0 hv)
        simpa [List.append_assoc] using this

/-- `extractPhase` appends exactly one extract event per candidate URL and
appends to the item list exactly the successfully extracted documents. -/
theorem extractPhase_spec (co : Collab) (urls : List String) :
    ∀ st items, ∃ its,
      extractPhase co urls st items =
        (items ++ its,
         { st with trace := st.trace ++ urls.map Event.extractEv }) ∧
      ∀ it ∈ its, ∃ u ∈ urls, co.extract u = some it := by
  induction urls with
  | nil =>
    intro st items
    exact ⟨[], by simp [extractPhase], by simp⟩
  | cons u rest ih =>
    intro st items
    cases he : co.extract u with
    | none =>
      obtain ⟨its, heq, hits⟩ :=
        ih { st with trace := st.trace ++ [Event.extractEv u] } items
      refine ⟨its, ?_, ?_⟩
      · simp only [extractPhase, he, heq, List.map_cons, List.append_assoc,
          List.singleton_append]
      · intro it hit
        obtain ⟨v, hv, hev⟩ := hits it hit
        exact ⟨v, List.mem_cons_of_mem u hv, hev⟩
    | some it0 =>
      obtain ⟨its, heq, hits⟩ :=
        ih { st with trace := st.trace ++ [Event.extractEv u] } (items ++ [it0])
      refine ⟨it0 :: its, ?_, ?_⟩
      · simp only [extractPhase, he, heq, List.map_cons, List.append_assoc,
          List.singleton_append]
      · intro it hit
        rcases List.mem_cons.1 hit with rfl | hit
        · exact ⟨u, List.mem_cons_self _ _, he⟩
        · obtain ⟨v, hv, hev⟩ := hits it hit
          exact ⟨v, List.mem_cons_of_mem u hv, hev⟩

theorem chunksGo_flatten : ∀ (n : Nat) (l : List String), l.length ≤ n →
    (chunksGo n l).flatten = l := by
  intro n
  induction n with
  | zero =>
    intro l hl
    cases l with
    | nil => rfl
    | cons x xs => simp at hl
  | succ n ih =>
    intro l hl
    cases l with
    | nil => rfl
    | cons x xs =>
      have hlen : ((x :: xs).drop 10).length ≤ n := by
        simp only [List.length_drop, List.length_cons] at hl ⊢
        omega
      simp only [chunksGo, List.flatten_cons, ih _ hlen,
        List.take_append_drop]

/-- Concatenating the size-10 batches gives back the original list. -/
theorem chunks10_flatten (l : List String) : (chunks10 l).flatten = l :=
  chunksGo_flatten l.length l (Nat.le_refl _)

-- ===========================================================================
-- The crawl invariant
-- ===========================================================================

/-- A classification record or frontier append for `u` is justified by a
successful batch call, already in the trace, whose response names `u`. -/
def RecordEvidence (co : Collab) (tr : List Event) (u : String) : Prop :=
  ∃ B cls, Event.classifyManyEv B ∈ tr ∧ co.classifyMany B = some cls ∧
    ∃ c ∈ cls, c.link = some u

theorem RecordEvidence.mono {co : Collab} {tr : List Event} {u : String}
    (evs : List Event) (h : RecordEvidence co tr u) :
    RecordEvidence co (tr ++ evs) u := by
  obtain ⟨B, cls, hB, hsome, hc⟩ := h
  exact ⟨B, cls, List.mem_append_left evs hB, hsome, hc⟩

/-- The part of the crawl invariant that survives to the end of the run:
the visited set is duplicate-free; the oracle is invoked at most once per
URL; the seed is never part of a submitted batch; the record dict has
duplicate-free keys and stores each record under its own URL; every
non-seed record and every frontier append is justified by a successful
batch response naming that URL; the crawl itself performs no extraction. -/
structure FinalCrawlInv (co : Collab) (seed : String) (st : CrawlState) : Prop where
  vis_nodup : st.visited.Nodup
  call_le : ∀ u, callCount st.trace u ≤ 1
  seed_not_batched : ∀ B, Event.classifyManyEv B ∈ st.trace → seed ∉ B
  keys_nodup : (st.crawled.map (·.1)).Nodup
  link_eq_key : ∀ p ∈ st.crawled, p.2.link = p.1
  rec_ev : ∀ u, u ≠ seed → (dictLookup st.crawled u).isSome →
    RecordEvidence co st.trace u
  frontier_ev : ∀ u, Event.frontierEv u ∈ st.trace →
    RecordEvidence co st.trace u
  no_extract : ∀ u, Event.extractEv u ∉ st.trace

/-- The full loop invariant: additionally, a URL not yet in the visited set
has never been submitted to the oracle, and the seed is visited. -/
structure CrawlInv (co : Collab) (seed : String) (st : CrawlState)
    extends FinalCrawlInv co seed st : Prop where
  unvisited_zero : ∀ u, u ∉ st.visited → callCount st.trace u = 0
  seed_vis : seed ∈ st.visited

theorem applyCls_step (co : Collab) (seed : String) (B : List String)
    (cls0 : List BatchCls) (c : BatchCls)
    (hsome : co.classifyMany B = some cls0) (hc0 : c ∈ cls0)
    (st : CrawlState) (dirs : List String)
    (hB : Event.classifyManyEv B ∈ st.trace) (hInv : CrawlInv co seed st) :
    CrawlInv co seed (applyCls c (st, dirs)).1 ∧
    (applyCls c (st, dirs)).1.visited = st.visited ∧
    (∀ u, callCount (applyCls c (st, dirs)).1.trace u = callCount st.trace u) ∧
    Event.classifyManyEv B ∈ (applyCls c (st, dirs)).1.trace := by
  cases hlink : c.link with
  | none =>
    simp only [applyCls, hlink]
    refine ⟨hInv, ?_, ?_, ?_⟩
    · simp
    · simp
    · exact hB
  | some l =>
    by_cases hle : l = ""
    · simp only [applyCls, hlink, if_pos hle]
      refine ⟨hInv, ?_, ?_, ?_⟩
      · simp
      · simp
      · exact hB
    · have hkeys := keys_nodup_dictInsert st.crawled l (mkCrawledLink l c)
        hInv.keys_nodup
      have hlek : ∀ p ∈ dictInsert st.crawled l (mkCrawledLink l c),
          p.2.link = p.1 :=
        forall_mem_dictInsert st.crawled l (mkCrawledLink l c) _
          hInv.link_eq_key rfl
      have hev : ∀ (tr' : List Event), Event.classifyManyEv B ∈ tr' →
          RecordEvidence co tr' l :=
        fun tr' h => ⟨B, cls0, h, hsome, c, hc0, hlink⟩
      have hrec : ∀ (tr' : List Event), Event.classifyManyEv B ∈ tr' →
          (∀ u, Event.frontierEv u ∈ st.trace → RecordEvidence co tr' u) →
          (∀ u, u ≠ seed → (dictLookup st.crawled u).isSome →
            RecordEvidence co tr' u) →
          ∀ u, u ≠ seed →
            (dictLookup (dictInsert st.crawled l (mkCrawledLink l c)) u).isSome →
            RecordEvidence co tr' u := by
        intro tr' hB' _ hold u hu hs
        rcases isSome_dictLookup_insert st.crawled l u (mkCrawledLink l c) hs
          with rfl | hs
        · exact hev tr' hB'
        · exact hold u hu hs
      by_cases hdir : c.linkType.getD "unknown" = "directory"
      · have hcnt : ∀ u,
            callCount (st.trace ++ [Event.frontierEv l]) u =
              callCount st.trace u := by
          intro u
          exact callCount_append_of_no_calls st.trace [Event.frontierEv l] u
            (by intro e he; simp only [List.mem_singleton] at he
                subst he; rfl)
        have hBmem : Event.classifyManyEv B ∈ st.trace ++ [Event.frontierEv l] :=
          List.mem_append_left _ hB
        have hCI : CrawlInv co seed
            { crawled := dictInsert st.crawled l (mkCrawledLink l c)
              visited := st.visited
              trace := st.trace ++ [Event.frontierEv l] } := by
          refine { vis_nodup := hInv.vis_nodup
                   call_le := fun u => by
                     show callCount (st.trace ++ [Event.frontierEv l]) u ≤ 1
                     rw [hcnt]; exact hInv.call_le u
                   seed_not_batched := ?_
                   keys_nodup := hkeys
                   link_eq_key := hlek
                   rec_ev := ?_
                   frontier_ev := ?_
                   no_extract := ?_
                   unvisited_zero := fun u hu => by
                     show callCount (st.trace ++ [Event.frontierEv l]) u = 0
                     rw [hcnt]; exact hInv.unvisited_zero u hu
                   seed_vis := hInv.seed_vis }
          · intro B' hB'
            rcases List.mem_append.1 hB' with h | h
            · exact hInv.seed_not_batched B' h
            · simp at h
          · exact hrec _ hBmem
              (fun u h => (hInv.frontier_ev u h).mono _)
              (fun u hu hs => (hInv.rec_ev u hu hs).mono _)
          · intro u hu
            rcases List.mem_append.1 hu with h | h
            · exact (hInv.frontier_ev u h).mono _
            · simp only [List.mem_singleton, Event.frontierEv.injEq] at h
              subst h
              exact hev _ hBmem
          · intro u hu
            rcases List.mem_append.1 hu with h | h
            · exact hInv.no_extract u h
            · simp at h
        simp only [applyCls, hlink, if_neg hle, if_pos hdir]
        exact ⟨hCI, trivial, fun u => hcnt u, hBmem⟩
      · have hCI : CrawlInv co seed
            { crawled := dictInsert st.crawled l (mkCrawledLink l c)
              visited := st.visited
              trace := st.trace } :=
          { vis_nodup := hInv.vis_nodup
            call_le := hInv.call_le
            seed_not_batched := hInv.seed_not_batched
            keys_nodup := hkeys
            link_eq_key := hlek
            rec_ev := hrec _ hB hInv.frontier_ev hInv.rec_ev
            frontier_ev := hInv.frontier_ev
            no_extract := hInv.no_extract
            unvisited_zero := hInv.unvisited_zero
            seed_vis := hInv.seed_vis }
        simp only [applyCls, hlink, if_neg hle, if_neg hdir]
        exact ⟨hCI, trivial, fun _ => trivial, hB⟩

theorem applyClsFold_inv (co : Collab) (seed : String) (B : List String)
    (cls0 : List BatchCls) (hsome : co.classifyMany B = some cls0) :
    ∀ (cls : List BatchCls) (acc : CrawlState × List String),
      cls ⊆ cls0 → Event.classifyManyEv B ∈ acc.1.trace →
      CrawlInv co seed acc.1 →
      CrawlInv co seed (cls.foldl (fun a c => applyCls c a) acc).1 ∧
      (cls.foldl (fun a c => applyCls c a) acc).1.visited = acc.1.visited ∧
      ∀ u, callCount (cls.foldl (fun a c => applyCls c a) acc).1.trace u =
        callCount acc.1.trace u := by
  intro cls
  induction cls with
  | nil =>
    intro acc _ _ hInv
    exact ⟨hInv, rfl, fun u => rfl⟩
  | cons c rest ih =>
    intro acc hsub hB hInv
    obtain ⟨st, dirs⟩ := acc
    have hc0 : c ∈ cls0 := hsub (List.mem_cons_self c rest)
    obtain ⟨h1, h2, h3, h4⟩ :=
      applyCls_step co seed B cls0 c hsome hc0 st dirs hB hInv
    obtain ⟨g1, g2, g3⟩ := ih (applyCls c (st, dirs))
      (fun x hx => hsub (List.mem_cons_of_mem c hx)) h4 h1
    rw [List.foldl_cons]
    exact ⟨g1, g2.trans h2, fun u => (g3 u).trans (h3 u)⟩

theorem processBatch_inv (co : Collab) (seed : String) (b : List String)
    (st : CrawlState) (dirs : List String)
    (hInv : CrawlInv co seed st) (hb_vis : ∀ u ∈ b, u ∈ st.visited)
    (hzero : ∀ u ∈ b, callCount st.trace u = 0) (hseed : seed ∉ b) :
    CrawlInv co seed (processBatch co b st dirs).1 ∧
    (processBatch co b st dirs).1.visited = st.visited ∧
    ∀ u, u ∉ b →
      callCount (processBatch co b st dirs).1.trace u = callCount st.trace u := by
  have hcnt : ∀ u, callCount (st.trace ++ [Event.classifyManyEv b]) u =
      callCount st.trace u + (if u ∈ b then 1 else 0) := by
    intro u
    rw [callCount_append, callCount_singleton]
    by_cases hu : u ∈ b <;> simp [callsFor, hu]
  have hBmem : Event.classifyManyEv b ∈ st.trace ++ [Event.classifyManyEv b] :=
    List.mem_append_right _ (List.mem_singleton_self _)
  have hInv1 : CrawlInv co seed
      { st with trace := st.trace ++ [Event.classifyManyEv b] } := by
    refine { vis_nodup := hInv.vis_nodup
             call_le := ?_
             seed_not_batched := ?_
             keys_nodup := hInv.keys_nodup
             link_eq_key := hInv.link_eq_key
             rec_ev := fun u hu hs => (hInv.rec_ev u hu hs).mono _
             frontier_ev := ?_
             no_extract := ?_
             unvisited_zero := ?_
             seed_vis := hInv.seed_vis }
    · intro u
      show callCount (st.trace ++ [Event.classifyManyEv b]) u ≤ 1
      rw [hcnt u]
      by_cases hu : u ∈ b
      · simp only [hu, if_true]
        have := hzero u hu
        omega
      · simp only [hu, if_false]
        have := hInv.call_le u
        omega
    · intro B' hB'
      rcases List.mem_append.1 hB' with h | h
      · exact hInv.seed_not_batched B' h
      · simp only [List.mem_singleton, Event.classifyManyEv.injEq] at h
        subst h
        exact hseed
    · intro u hu
      rcases List.mem_append.1 hu with h | h
      · exact (hInv.frontier_ev u h).mono _
      · simp at h
    · intro u hu
      rcases List.mem_append.1 hu with h | h
      · exact hInv.no_extract u h
      · simp at h
    · intro u hu
      show callCount (st.trace ++ [Event.classifyManyEv b]) u = 0
      rw [hcnt u]
      have hub : u ∉ b := fun hmem => hu (hb_vis u hmem)
      simp only [hub, if_false]
      have := hInv.unvisited_zero u hu
      omega
  cases hcm : co.classifyMany b with
  | none =>
    simp only [processBatch, hcm]
    refine ⟨hInv1, trivial, ?_⟩
    intro u hu
    show callCount (st.trace ++ [Event.classifyManyEv b]) u = callCount st.trace u
    rw [hcnt u]
    simp [hu]
  | some cls =>
    simp only [processBatch, hcm]
    obtain ⟨g1, g2, g3⟩ := applyClsFold_inv co seed b cls hcm cls
      ({ st with trace := st.trace ++ [Event.classifyManyEv b] }, dirs)
      (fun x hx => hx) hBmem hInv1
    refine ⟨g1, g2, ?_⟩
    intro u hu
    have := g3 u
    rw [this]
    show callCount (st.trace ++ [Event.classifyManyEv b]) u = callCount st.trace u
    rw [hcnt u]
    simp [hu]

theorem processBatches_inv (co : Collab) (seed : String) :
    ∀ (bs : List (List String)) (st : CrawlState) (dirs : List String),
      CrawlInv co seed st → (bs.flatten).Nodup →
      (∀ u ∈ bs.flatten, u ∈ st.visited) →
      (∀ u ∈ bs.flatten, callCount st.trace u = 0) →
      seed ∉ bs.flatten →
      CrawlInv co seed (processBatches co bs st dirs).1 := by
  intro bs
  induction bs with
  | nil =>
    intro st dirs hInv _ _ _ _
    exact hInv
  | cons b rest ih =>
    intro st dirs hInv hnd hvis hzero hseed
    rw [List.flatten_cons] at hnd hvis hzero hseed
    obtain ⟨hnd_b, hnd_rest, hdisj⟩ := List.nodup_append.1 hnd
    obtain ⟨g1, g2, g3⟩ := processBatch_inv co seed b st dirs hInv
      (fun u hu => hvis u (List.mem_append_left _ hu))
      (fun u hu => hzero u (List.mem_append_left _ hu))
      (fun hu => hseed (List.mem_append_left _ hu))
    simp only [processBatches]
    refine ih (processBatch co b st dirs).1 (processBatch co b st dirs).2
      g1 hnd_rest ?_ ?_ ?_
    · intro u hu
      rw [g2]
      exact hvis u (List.mem_append_right _ hu)
    · intro u hu
      have hub : u ∉ b := fun hmem => hdisj hmem hu
      rw [g3 u hub]
      exact hzero u (List.mem_append_right _ hu)
    · intro hu
      exact hseed (List.mem_append_right _ hu)

theorem crawlRound_inv (co : Collab) (seed : String) (dirs : List String)
    (st : CrawlState) (hInv : CrawlInv co seed st) :
    CrawlInv co seed (crawlRound co dirs st).1 := by
  obtain ⟨ext, heq, hnd⟩ := explorePhase_spec co dirs st []
  have h1 : (explorePhase co dirs st []).1 =
      { st with visited := st.visited ++ ext,
                trace := st.trace ++ dirs.map Event.discoverEv } := by
    rw [heq]
  have h2 : (explorePhase co dirs st []).2 = ext := by
    rw [heq]; rfl
  have hcnt : ∀ u,
      callCount (st.trace ++ dirs.map Event.discoverEv) u =
        callCount st.trace u := by
    intro u
    refine callCount_append_of_no_calls _ _ u ?_
    intro e he
    obtain ⟨v, _, rfl⟩ := List.mem_map.1 he
    rfl
  have hInv1 : CrawlInv co seed
      { st with visited := st.visited ++ ext,
                trace := st.trace ++ dirs.map Event.discoverEv } := by
    refine { vis_nodup := hnd hInv.vis_nodup
             call_le := fun u => by
               show callCount (st.trace ++ dirs.map Event.discoverEv) u ≤ 1
               rw [hcnt]; exact hInv.call_le u
             seed_not_batched := ?_
             keys_nodup := hInv.keys_nodup
             link_eq_key := hInv.link_eq_key
             rec_ev := fun u hu hs => (hInv.rec_ev u hu hs).mono _
             frontier_ev := ?_
             no_extract := ?_
             unvisited_zero := ?_
             seed_vis := List.mem_append_left _ hInv.seed_vis }
    · intro B hB
      rcases List.mem_append.1 hB with h | h
      · exact hInv.seed_not_batched B h
      · obtain ⟨v, _, hv⟩ := List.mem_map.1 h
        cases hv
    · intro u hu
      rcases List.mem_append.1 hu with h | h
      · exact (hInv.frontier_ev u h).mono _
      · obtain ⟨v, _, hv⟩ := List.mem_map.1 h
        cases hv
    · intro u hu
      rcases List.mem_append.1 hu with h | h
      · exact hInv.no_extract u h
      · obtain ⟨v, _, hv⟩ := List.mem_map.1 h
        cases hv
    · intro u hu
      have hu' : u ∉ st.visited := fun h => hu (List.mem_append_left _ h)
      show callCount (st.trace ++ dirs.map Event.discoverEv) u = 0
      rw [hcnt]
      exact hInv.unvisited_zero u hu'
  unfold crawlRound
  rw [h1, h2]
  by_cases hext0 : ext = []
  · rw [if_pos hext0]
    exact hInv1
  · rw [if_neg hext0]
    have hvnd := hnd hInv.vis_nodup
    obtain ⟨_, hextnd, hdisj⟩ := List.nodup_append.1 hvnd
    refine processBatches_inv co seed (chunks10 ext) _ [] hInv1 ?_ ?_ ?_ ?_
    · rw [chunks10_flatten]
      exact hextnd
    · intro u hu
      rw [chunks10_flatten] at hu
      exact List.mem_append_right _ hu
    · intro u hu
      rw [chunks10_flatten] at hu
      have hu' : u ∉ st.visited := fun h => hdisj h hu
      show callCount (st.trace ++ dirs.map Event.discoverEv) u = 0
      rw [hcnt]
      exact hInv.unvisited_zero u hu'
    · rw [chunks10_flatten]
      exact fun h => hdisj hInv.seed_vis h

theorem crawlLoop_inv (co : Collab) (seed : String) :
    ∀ (fuel : Nat) (dirs : List String) (st : CrawlState),
      CrawlInv co seed st → CrawlInv co seed (crawlLoop co fuel dirs st) := by
  intro fuel
  induction fuel with
  | zero => intro dirs st h; exact h
  | succ n ih =>
    intro dirs st h
    cases dirs with
    | nil => exact h
    | cons d rest =>
      rw [crawlLoop]
      exact ih _ _ (crawlRound_inv co seed (d :: rest) st h)

/-- The part of the crawl invariant needed by the claims holds at the end
of `run_crawl`, for every collaborator behavior, seed and fuel. -/
theorem run_crawl_finalInv (co : Collab) (seed : String) (fuel : Nat) :
    FinalCrawlInv co seed (run_crawl co seed fuel) := by
  have hsingle : ∀ u, callCount [Event.classifyOneEv seed] u ≤ 1 := by
    intro u
    have := callCount_le_length [Event.classifyOneEv seed] u
    simpa using this
  cases hc : co.classifyOne seed with
  | none =>
    simp only [run_crawl, hc]
    refine { vis_nodup := by simp
             call_le := hsingle
             seed_not_batched := ?_
             keys_nodup := by simp
             link_eq_key := by intro p hp; simp at hp
             rec_ev := by intro u _ hs; simp [dictLookup] at hs
             frontier_ev := by intro u h; simp at h
             no_extract := by intro u h; simp at h }
    intro B hB
    simp at hB
  | some c =>
    have hentry : CrawlInv co seed
        { crawled := [(seed, ⟨seed, c.linkType.getD "unknown",
                        c.matchesWhatTheUserWants.getD false, none⟩)],
          visited := [seed],
          trace := [Event.classifyOneEv seed] } := by
      refine { vis_nodup := by simp
               call_le := hsingle
               seed_not_batched := by intro B hB; simp at hB
               keys_nodup := by simp
               link_eq_key := ?_
               rec_ev := ?_
               frontier_ev := by intro u h; simp at h
               no_extract := by intro u h; simp at h
               unvisited_zero := ?_
               seed_vis := by simp }
      · intro p hp
        rcases List.mem_singleton.1 hp with rfl
        rfl
      · intro u hu hs
        have hne : ¬ seed = u := fun h => hu h.symm
        simp [dictLookup, hne] at hs
      · intro u hu
        have hne : ¬ seed = u := fun h => hu (by simp [h])
        rw [callCount_singleton]
        simp [callsFor, hne]
    simp only [run_crawl, hc]
    by_cases hdir : (⟨seed, c.linkType.getD "unknown",
        c.matchesWhatTheUserWants.getD false, none⟩ : CrawledLink).link_type
        ≠ "directory"
    · rw [if_pos hdir]
      exact hentry.toFinalCrawlInv
    · rw [if_neg hdir]
      exact (crawlLoop_inv co seed fuel [seed] _ hentry).toFinalCrawlInv

/-- The extraction phase leaves the record dict and visited set of the
crawl untouched and appends exactly one extract event per candidate. -/
theorem run_scraper_state (co : Collab) (seed : String) (fuel : Nat) :
    (run_scraper co seed fuel).2 =
      { run_crawl co seed fuel with
        trace := (run_crawl co seed fuel).trace ++
          (postLinks (run_crawl co seed fuel)).map Event.extractEv } := by
  obtain ⟨its, heq, _⟩ := extractPhase_spec co
    (postLinks (run_crawl co seed fuel)) (run_crawl co seed fuel) []
  show (extractPhase co (postLinks (run_crawl co seed fuel))
    (run_crawl co seed fuel) []).2 = _
  rw [heq]

/-- A URL in the candidate post list has a record, under its own key, that
is a relevant post. -/
theorem mem_postLinks (st : CrawlState) (u : String)
    (hk : (st.crawled.map (·.1)).Nodup)
    (hl : ∀ p ∈ st.crawled, p.2.link = p.1)
    (hu : u ∈ postLinks st) :
    ∃ l, dictLookup st.crawled u = some l ∧ l.link_type = "post" ∧
      l.matches_what_the_user_wants = true := by
  unfold postLinks at hu
  obtain ⟨l, hlmem, hlink⟩ := List.mem_map.1 hu
  obtain ⟨hlmem2, hftrue⟩ := List.mem_filter.1 hlmem
  obtain ⟨p, hp, hpl⟩ := List.mem_map.1 hlmem2
  have hkey : p.1 = u := by rw [← hl p hp, hpl, hlink]
  have hlook := dictLookup_of_mem st.crawled p hk hp
  rw [hkey, hpl] at hlook
  simp only [Bool.and_eq_true, decide_eq_true_eq] at hftrue
  exact ⟨l, hlook, hftrue.1, hftrue.2⟩

/-- No event appended by the extraction phase is an oracle call. -/
theorem extract_events_no_calls (urls : List String) (u : String) :
    ∀ e ∈ urls.map Event.extractEv, callsFor u e = false := by
  intro e he
  obtain ⟨v, _, rfl⟩ := List.mem_map.1 he
  rfl

-- ===========================================================================
-- Claim theorems
-- ===========================================================================

/-- Claim C1: in every run, over any collaborator behavior, seed URL and
round budget, every URL enters the visited set at most once (the set is
duplicate-free), and the Classification Oracle is invoked at most once for
any URL: the single-URL seed call and the batch calls of the whole trace
mention each URL at most once in total. -/
theorem c1_url_visited_once_oracle_once (co : Collab) (seed : String)
    (fuel : Nat) :
    (run_scraper co seed fuel).2.visited.Nodup ∧
    ∀ u, callCount (run_scraper co seed fuel).2.trace u ≤ 1 := by
  have hF := run_crawl_finalInv co seed fuel
  rw [run_scraper_state co seed fuel]
  constructor
  · exact hF.vis_nodup
  · intro u
    show callCount ((run_crawl co seed fuel).trace ++
      (postLinks (run_crawl co seed fuel)).map Event.extractEv) u ≤ 1
    rw [callCount_append_of_no_calls _ _ u (extract_events_no_calls _ u)]
    exact hF.call_le u

/-- Claim C6: if the single-URL classification of the seed returns no
result, the run ends immediately: the returned document list is empty and
the final state shows no visited URLs, no records, and a trace consisting
of exactly the one seed classification call, hence no link discovery, no
batch classification and no extraction. -/
theorem c6_seed_classification_failure (co : Collab) (seed : String)
    (fuel : Nat) (h : co.classifyOne seed = none) :
    (run_scraper co seed fuel).1 = [] ∧
    (run_scraper co seed fuel).2 =
      ⟨[], [], [Event.classifyOneEv seed]⟩ := by
  have hst : run_crawl co seed fuel = ⟨[], [], [Event.classifyOneEv seed]⟩ := by
    simp [run_crawl, h]
  constructor
  · show (extractPhase co (postLinks (run_crawl co seed fuel))
      (run_crawl co seed fuel) []).1 = []
    rw [hst]
    rfl
  · show (extractPhase co (postLinks (run_crawl co seed fuel))
      (run_crawl co seed fuel) []).2 = _
    rw [hst]
    rfl

/-- Witness for C6 at a concrete collaborator whose seed classification
fails: the run returns no documents and performs exactly one oracle call. -/
theorem c6_seed_classification_failure_witness :
    (run_scraper
      ⟨fun _ => none, fun _ => none, fun _ => none, fun _ => none⟩
      "http://d/s" 3).1 = [] ∧
    (run_scraper
      ⟨fun _ => none, fun _ => none, fun _ => none, fun _ => none⟩
      "http://d/s" 3).2 =
      ⟨[], [], [Event.classifyOneEv "http://d/s"]⟩ :=
  c6_seed_classification_failure
    ⟨fun _ => none, fun _ => none, fun _ => none, fun _ => none⟩
    "http://d/s" 3 rfl

/-- Claim C7: a URL whose recorded classification is type `post` with the
relevance flag false is never handed to the Content Extractor: no extract
event for it appears in the run trace. -/
theorem c7_irrelevant_post_never_extracted (co : Collab) (seed : String)
    (fuel : Nat) (u : String) (l : CrawledLink)
    (hl : dictLookup (run_scraper co seed fuel).2.crawled u = some l)
    (hpost : l.link_type = "post")
    (hrel : l.matches_what_the_user_wants = false) :
    Event.extractEv u ∉ (run_scraper co seed fuel).2.trace := by
  have hF := run_crawl_finalInv co seed fuel
  rw [run_scraper_state co seed fuel] at hl ⊢
  intro hmem
  have hmem' : Event.extractEv u ∈ (run_crawl co seed fuel).trace ++
      (postLinks (run_crawl co seed fuel)).map Event.extractEv := hmem
  rcases List.mem_append.1 hmem' with h | h
  · exact hF.no_extract u h
  · obtain ⟨v, hv, hvu⟩ := List.mem_map.1 h
    have : v = u := by
      injection hvu
    subst this
    obtain ⟨l', hl', hp', hm'⟩ := mem_postLinks _ v hF.keys_nodup
      hF.link_eq_key hv
    have hll : l = l' := by
      have hcr : dictLookup (run_crawl co seed fuel).crawled v = some l := hl
      rw [hcr] at hl'
      injection hl'
    rw [hll, hm'] at hrel
    cases hrel

/-- Witness for C7: a run whose seed is classified as an irrelevant post
has a (post, not relevant) record for the seed and never extracts it. -/
theorem c7_irrelevant_post_never_extracted_witness :
    Event.extractEv "http://d/s" ∉
      (run_scraper
        ⟨fun _ => some ⟨some "post", some false⟩, fun _ => none,
          fun _ => some [], fun _ => none⟩
        "http://d/s" 3).2.trace :=
  c7_irrelevant_post_never_extracted
    ⟨fun _ => some ⟨some "post", some false⟩, fun _ => none,
      fun _ => some [], fun _ => none⟩
    "http://d/s" 3 "http://d/s" ⟨"http://d/s", "post", false, none⟩
    (by decide) rfl rfl

/-- Claim C5: when a batch classification call fails (returns no result),
every URL of that batch stays unclassified for the whole run, provided the
oracle honors its contract of naming only submitted URLs in successful
responses: the URL gets no record, is never appended to the frontier, never
becomes an extraction candidate, is never handed to the extractor, and is
submitted to the oracle exactly once (no retry); the run still completes
and its trace and results are well defined. -/
theorem c5_failed_batch_excluded (co : Collab) (seed : String) (fuel : Nat)
    (B : List String) (u : String)
    (hconf : ∀ urls cls, co.classifyMany urls = some cls →
      ∀ c ∈ cls, ∀ l, c.link = some l → l ∈ urls)
    (hB : Event.classifyManyEv B ∈ (run_scraper co seed fuel).2.trace)
    (hfail : co.classifyMany B = none)
    (hu : u ∈ B) :
    dictLookup (run_scraper co seed fuel).2.crawled u = none ∧
    Event.frontierEv u ∉ (run_scraper co seed fuel).2.trace ∧
    u ∉ postLinks (run_crawl co seed fuel) ∧
    Event.extractEv u ∉ (run_scraper co seed fuel).2.trace ∧
    callCount (run_scraper co seed fuel).2.trace u = 1 := by
  have hF := run_crawl_finalInv co seed fuel
  rw [run_scraper_state co seed fuel] at hB ⊢
  have hBct : Event.classifyManyEv B ∈ (run_crawl co seed fuel).trace := by
    have hB' : Event.classifyManyEv B ∈ (run_crawl co seed fuel).trace ++
        (postLinks (run_crawl co seed fuel)).map Event.extractEv := hB
    rcases List.mem_append.1 hB' with h | h
    · exact h
    · obtain ⟨v, _, hv⟩ := List.mem_map.1 h
      cases hv
  have husB : callsFor u (Event.classifyManyEv B) = true := by
    simp [callsFor, hu]
  have hnoev : ¬ RecordEvidence co (run_crawl co seed fuel).trace u := by
    rintro ⟨B', cls', hB', hsome', c, hc, hlink⟩
    have huB' : u ∈ B' := hconf B' cls' hsome' c hc u hlink
    have hBne : B ≠ B' := by
      intro h
      rw [h, hsome'] at hfail
      cases hfail
    have hene : (Event.classifyManyEv B) ≠ (Event.classifyManyEv B') := by
      intro h
      injection h with h2
      exact hBne h2
    have h2 := two_le_callCount_of_mem_ne hBct hB' hene husB
      (by simp [callsFor, huB'])
    have h1 := hF.call_le u
    omega
  have hune : u ≠ seed := by
    intro h
    exact hF.seed_not_batched B hBct (h ▸ hu)
  have hlookup : dictLookup (run_crawl co seed fuel).crawled u = none := by
    cases hcase : dictLookup (run_crawl co seed fuel).crawled u with
    | none => rfl
    | some l =>
      exact absurd (hF.rec_ev u hune (by simp [hcase])) hnoev
  have hpl : u ∉ postLinks (run_crawl co seed fuel) := by
    intro hmem
    obtain ⟨l, hl, _, _⟩ := mem_postLinks _ u hF.keys_nodup
      hF.link_eq_key hmem
    rw [hlookup] at hl
    cases hl
  refine ⟨hlookup, ?_, hpl, ?_, ?_⟩
  · intro hmem
    have hmem' : Event.frontierEv u ∈ (run_crawl co seed fuel).trace ++
        (postLinks (run_crawl co seed fuel)).map Event.extractEv := hmem
    rcases List.mem_append.1 hmem' with h | h
    · exact hnoev (hF.frontier_ev u h)
    · obtain ⟨v, _, hv⟩ := List.mem_map.1 h
      cases hv
  · intro hmem
    have hmem' : Event.extractEv u ∈ (run_crawl co seed fuel).trace ++
        (postLinks (run_crawl co seed fuel)).map Event.extractEv := hmem
    rcases List.mem_append.1 hmem' with h | h
    · exact hF.no_extract u h
    · obtain ⟨v, hvmem, hv⟩ := List.mem_map.1 h
      have hvu : v = u := by injection hv
      subst hvu
      exact hpl hvmem
  · show callCount ((run_crawl co seed fuel).trace ++
      (postLinks (run_crawl co seed fuel)).map Event.extractEv) u = 1
    rw [callCount_append_of_no_calls _ _ u (extract_events_no_calls _ u)]
    have hle := hF.call_le u
    have hge := one_le_callCount_of_mem hBct husB
    omega

/-- Witness for C5 at a concrete run: the seed is a directory, the one
discovered link is batched, the batch call fails, and the link ends the run
unclassified, out of the frontier, out of the candidates, unextracted, and
queried exactly once. -/
theorem c5_failed_batch_excluded_witness :
    dictLookup (run_scraper
      ⟨fun _ => some ⟨some "directory", some false⟩, fun _ => none,
        fun u => if u = "http://d/s" then some ["http://d/a"] else some [],
        fun _ => none⟩ "http://d/s" 2).2.crawled "http://d/a" = none ∧
    Event.frontierEv "http://d/a" ∉ (run_scraper
      ⟨fun _ => some ⟨some "directory", some false⟩, fun _ => none,
        fun u => if u = "http://d/s" then some ["http://d/a"] else some [],
        fun _ => none⟩ "http://d/s" 2).2.trace ∧
    "http://d/a" ∉ postLinks (run_crawl
      ⟨fun _ => some ⟨some "directory", some false⟩, fun _ => none,
        fun u => if u = "http://d/s" then some ["http://d/a"] else some [],
        fun _ => none⟩ "http://d/s" 2) ∧
    Event.extractEv "http://d/a" ∉ (run_scraper
      ⟨fun _ => some ⟨some "directory", some false⟩, fun _ => none,
        fun u => if u = "http://d/s" then some ["http://d/a"] else some [],
        fun _ => none⟩ "http://d/s" 2).2.trace ∧
    callCount (run_scraper
      ⟨fun _ => some ⟨some "directory", some false⟩, fun _ => none,
        fun u => if u = "http://d/s" then some ["http://d/a"] else some [],
        fun _ => none⟩ "http://d/s" 2).2.trace "http://d/a" = 1 :=
  c5_failed_batch_excluded
    ⟨fun _ => some ⟨some "directory", some false⟩, fun _ => none,
      fun u => if u = "http://d/s" then some ["http://d/a"] else some [],
      fun _ => none⟩ "http://d/s" 2 ["http://d/a"] "http://d/a"
    (fun _ _ h => Option.noConfusion h)
    (by
      have htr : (run_scraper
          ⟨fun _ => some ⟨some "directory", some false⟩, fun _ => none,
            fun u => if u = "http://d/s" then some ["http://d/a"] else some [],
            fun _ => none⟩ "http://d/s" 2).2.trace =
          [Event.classifyOneEv "http://d/s", Event.discoverEv "http://d/s",
            Event.classifyManyEv ["http://d/a"]] := by decide
      rw [htr]
      simp)
    rfl (by decide)

/-- Record changes made while consuming one batch response are keyed by the
response elements themselves: if the record stored under `u` changed, the
response list contains an element whose own `link` field is `u`. -/
theorem applyClsFold_lookup :
    ∀ (cls : List BatchCls) (acc : CrawlState × List String) (u : String),
      dictLookup ((cls.foldl (fun a c => applyCls c a) acc).1.crawled) u ≠
        dictLookup acc.1.crawled u →
      ∃ c ∈ cls, c.link = some u := by
  intro cls
  induction cls with
  | nil =>
    intro acc u h
    exact absurd rfl h
  | cons c rest ih =>
    intro acc u h
    rw [List.foldl_cons] at h
    by_cases h2 : dictLookup
        ((rest.foldl (fun a c => applyCls c a) (applyCls c acc)).1.crawled) u =
        dictLookup ((applyCls c acc).1.crawled) u
    · have hch : dictLookup ((applyCls c acc).1.crawled) u ≠
          dictLookup acc.1.crawled u := by
        intro he
        exact h (h2.trans he)
      cases hlink : c.link with
      | none =>
        exact absurd (by simp [applyCls, hlink]) hch
      | some l =>
        by_cases hle : l = ""
        · exact absurd (by simp [applyCls, hlink, hle]) hch
        · by_cases hul : u = l
          · exact ⟨c, List.mem_cons_self c rest, by rw [hlink, hul]⟩
          · have hunch : dictLookup ((applyCls c acc).1.crawled) u =
                dictLookup acc.1.crawled u := by
              by_cases hdir : c.linkType.getD "unknown" = "directory"
              · simp only [applyCls, hlink, if_neg hle, if_pos hdir]
                exact dictLookup_insert_ne _ l u _ hul
              · simp only [applyCls, hlink, if_neg hle, if_neg hdir]
                exact dictLookup_insert_ne _ l u _ hul
            exact absurd hunch hch
    · obtain ⟨c', hc', hl'⟩ := ih (applyCls c acc) u h2
      exact ⟨c', List.mem_cons_of_mem c hc', hl'⟩

/-- Claim C2 (amended): the orchestrator does not consume batch results
positionally; it keys each consumed result by the `link` field the oracle
put in the result itself (skipping results with a missing or empty link).
Consequently any change to the stored classification of a URL `u` during
batch consumption comes from a returned result naming `u` — whether or not
`u` was in the submitted batch. -/
theorem c2_keyed_consumption (co : Collab) (b : List String)
    (st : CrawlState) (dirs : List String) (u : String)
    (h : dictLookup (processBatch co b st dirs).1.crawled u ≠
      dictLookup st.crawled u) :
    ∃ cls, co.classifyMany b = some cls ∧ ∃ c ∈ cls, c.link = some u := by
  cases hcm : co.classifyMany b with
  | none =>
    simp [processBatch, hcm] at h
  | some cls =>
    refine ⟨cls, rfl, ?_⟩
    have h' : dictLookup ((cls.foldl (fun a c => applyCls c a)
        ({ st with trace := st.trace ++ [Event.classifyManyEv b] }, dirs)).1.crawled)
        u ≠
        dictLookup
          ({ st with trace := st.trace ++ [Event.classifyManyEv b] }
            : CrawlState).crawled u := by
      simp only [processBatch, hcm] at h
      exact h
    exact applyClsFold_lookup cls _ u h'

/-- Witness for the amended C2: in a concrete batch consumption that
changes the record stored under a URL, that URL is named by a returned
result element. -/
theorem c2_keyed_consumption_witness :
    ∃ cls,
      Collab.classifyMany
        ⟨fun _ => none,
          fun _ => some [⟨some "http://d/x", some "post", some true⟩],
          fun _ => none, fun _ => none⟩ ["http://d/a"] = some cls ∧
      ∃ c ∈ cls, c.link = some "http://d/x" :=
  c2_keyed_consumption
    ⟨fun _ => none,
      fun _ => some [⟨some "http://d/x", some "post", some true⟩],
      fun _ => none, fun _ => none⟩
    ["http://d/a"] ⟨[], [], []⟩ [] "http://d/x" (by decide)

/-- Counterexample to C2 as stated: in a concrete run whose only submitted
batch is `["http://d/a"]`, the orchestrator records a classification for
`"http://d/x"`, a URL the oracle invented that was never in the batch,
while the actually submitted URL gets no record at all — consumption is
keyed by the response link field, not matched positionally to the batch. -/
theorem c2_positional_consumption_cex :
    dictLookup (run_scraper
      ⟨fun _ => some ⟨some "directory", some false⟩,
        fun b => if b = ["http://d/a"] then
          some [⟨some "http://d/x", some "post", some true⟩] else none,
        fun u => if u = "http://d/s" then some ["http://d/a"] else some [],
        fun _ => none⟩ "http://d/s" 2).2.crawled "http://d/x" =
      some ⟨"http://d/x", "post", true, none⟩ ∧
    dictLookup (run_scraper
      ⟨fun _ => some ⟨some "directory", some false⟩,
        fun b => if b = ["http://d/a"] then
          some [⟨some "http://d/x", some "post", some true⟩] else none,
        fun u => if u = "http://d/s" then some ["http://d/a"] else some [],
        fun _ => none⟩ "http://d/s" 2).2.crawled "http://d/a" = none ∧
    (run_scraper
      ⟨fun _ => some ⟨some "directory", some false⟩,
        fun b => if b = ["http://d/a"] then
          some [⟨some "http://d/x", some "post", some true⟩] else none,
        fun u => if u = "http://d/s" then some ["http://d/a"] else some [],
        fun _ => none⟩ "http://d/s" 2).2.trace =
      [Event.classifyOneEv "http://d/s", Event.discoverEv "http://d/s",
        Event.classifyManyEv ["http://d/a"], Event.extractEv "http://d/x"] ∧
    "http://d/x" ∉ ["http://d/a"] := by
  refine ⟨by decide, by decide, by decide, by decide⟩

/-- Claim C3 (amended): every document in the list the run returns comes
from a successful extraction of a candidate post URL — extractions that
return no document are dropped — but no emptiness check is applied to the
body: a successfully extracted document is emitted even when its body is
empty. -/
theorem c3_only_successful_extractions_emitted (co : Collab) (seed : String)
    (fuel : Nat) :
    ∀ it ∈ (run_scraper co seed fuel).1,
      ∃ u ∈ postLinks (run_crawl co seed fuel), co.extract u = some it := by
  obtain ⟨its, heq, hits⟩ := extractPhase_spec co
    (postLinks (run_crawl co seed fuel)) (run_crawl co seed fuel) []
  intro it hit
  have h1 : (run_scraper co seed fuel).1 = its := by
    show (extractPhase co (postLinks (run_crawl co seed fuel))
      (run_crawl co seed fuel) []).1 = its
    rw [heq]
    simp
  rw [h1] at hit
  exact hits it hit

/-- Witness for the amended C3: the one emitted document of a concrete run
is the successful extraction of the one candidate URL. -/
theorem c3_only_successful_extractions_emitted_witness :
    ∃ u ∈ postLinks (run_crawl
      ⟨fun _ => some ⟨some "post", some true⟩, fun _ => none, fun _ => none,
        extract_post
          (fun u => if u = "http://d/s" then some ⟨none, some "T", []⟩
            else none)
          (fun s => s)⟩ "http://d/s" 1),
      Collab.extract
        ⟨fun _ => some ⟨some "post", some true⟩, fun _ => none, fun _ => none,
          extract_post
            (fun u => if u = "http://d/s" then some ⟨none, some "T", []⟩
              else none)
            (fun s => s)⟩ u =
        some ⟨"T", "", "blog", "http://d/s", none⟩ :=
  c3_only_successful_extractions_emitted
    ⟨fun _ => some ⟨some "post", some true⟩, fun _ => none, fun _ => none,
      extract_post
        (fun u => if u = "http://d/s" then some ⟨none, some "T", []⟩
          else none)
        (fun s => s)⟩ "http://d/s" 1
    ⟨"T", "", "blog", "http://d/s", none⟩
    (by
      rw [show (run_scraper
        ⟨fun _ => some ⟨some "post", some true⟩, fun _ => none, fun _ => none,
          extract_post
            (fun u => if u = "http://d/s" then some ⟨none, some "T", []⟩
              else none)
            (fun s => s)⟩ "http://d/s" 1).1 =
        [⟨"T", "", "blog", "http://d/s", none⟩] from by decide]
      simp)

/-- Counterexample to C3 as stated: a concrete run in which extraction
succeeds on a page with no block-level content; the resulting document has
an empty body and is nevertheless emitted in the final list — the code has
no empty-body filter, only a None filter. -/
theorem c3_empty_body_emitted_cex :
    (run_scraper
      ⟨fun _ => some ⟨some "post", some true⟩, fun _ => none, fun _ => none,
        extract_post
          (fun u => if u = "http://d/s" then some ⟨none, some "T", []⟩
            else none)
          (fun s => s)⟩ "http://d/s" 1).1 =
      [⟨"T", "", "blog", "http://d/s", none⟩] ∧
    (⟨"T", "", "blog", "http://d/s", none⟩ : KBItem).content = "" ∧
    extract_post
      (fun u => if u = "http://d/s" then some ⟨none, some "T", []⟩ else none)
      (fun s => s) "http://d/s" =
      some ⟨"T", "", "blog", "http://d/s", none⟩ :=
  ⟨by decide, rfl, by decide⟩

/-- A Tier-2 iteration behavior in which the operations the source leaves
unguarded do not raise: the top-of-iteration restore `goto` succeeds
whenever it runs, and inside the timeout handler `wait_for_url` and the
restore `goto` raise at worst a `PWTimeout`.  Every probe error the source
actually guards (eligibility exceptions, click exceptions, timeouts) is
still allowed. -/
def guardedProbe (b : IterBehavior) : Prop :=
  (b.urlDiffers = true → b.gotoTop = PWGoto.ok) ∧
  (∀ w g, b.click = ClickOutcome.timeoutPath w g →
    w ≠ WaitUrlRes.err ∧ g ≠ GotoBackRes.err)

theorem tier2Probe_ok (netloc : String → String) (base_domain : String) :
    ∀ (behaviors : List IterBehavior) (links : List String),
      (∀ b ∈ behaviors, guardedProbe b) →
      ∃ ls, tier2Probe netloc base_domain behaviors links = Except.ok ls := by
  intro behaviors
  induction behaviors with
  | nil =>
    intro links _
    exact ⟨links, rfl⟩
  | cons b rest ih =>
    intro links hg
    have hb := hg b (List.mem_cons_self b rest)
    have hrest : ∀ x ∈ rest, guardedProbe x :=
      fun x hx => hg x (List.mem_cons_of_mem b hx)
    have hcond : ¬ (b.urlDiffers ∧ b.gotoTop = PWGoto.failed) := by
      rintro ⟨h1, h2⟩
      have := hb.1 h1
      rw [this] at h2
      cases h2
    rw [tier2Probe, if_neg hcond]
    cases helig : b.elig with
    | countZero => exact ⟨links, rfl⟩
    | raiseExc => exact ⟨links, rfl⟩
    | skip => exact ih links hrest
    | proceed =>
      cases hclick : b.click with
      | newTab u => exact ih _ hrest
      | otherExc => exact ih _ hrest
      | timeoutPath w g =>
        obtain ⟨hw, hgk⟩ := hb.2 w g hclick
        cases w with
        | ok u =>
          cases g with
          | ok => exact ih _ hrest
          | timeout => exact ih _ hrest
          | err => exact absurd rfl hgk
        | timeout => exact ih _ hrest
        | err => exact absurd rfl hw

/-- Claim C4 (amended): as long as the operations the source leaves
unguarded do not raise, no probe error propagates out of link discovery:
an eligibility-probe error ends Tier-2 early with the links gathered so
far, a click-handling error or timeout is skipped, and the call returns
normally.  (A failure of the unguarded restore `goto` operations does
escape; see the counterexample.) -/
theorem c4_guarded_probe_errors_absorbed (urljoin : String → String → String)
    (netloc : String → String) (base_domain base_url : String)
    (hrefs : List String) (behaviors : List IterBehavior)
    (h : ∀ b ∈ behaviors, guardedProbe b) :
    ∃ res, extract_links urljoin netloc base_domain base_url hrefs behaviors =
      Except.ok res := by
  unfold extract_links
  by_cases h5 : 5 < (tier1Links urljoin netloc base_domain base_url hrefs).length
  · rw [if_pos h5]
    exact ⟨_, rfl⟩
  · rw [if_neg h5]
    obtain ⟨ls, hls⟩ := tier2Probe_ok netloc base_domain behaviors _ h
    refine ⟨(ls, true), ?_⟩
    rw [hls]
    rfl

/-- Witness for the amended C4: a page probed with one click that raises a
guarded exception and one click whose navigation wait merely times out —
link discovery still returns normally. -/
theorem c4_guarded_probe_errors_absorbed_witness :
    ∃ res, extract_links (fun _ h => h) (fun _ => "d") "d" "http://d/" []
      [⟨false, PWGoto.ok, EligOutcome.proceed, ClickOutcome.otherExc⟩,
       ⟨false, PWGoto.ok, EligOutcome.proceed,
         ClickOutcome.timeoutPath WaitUrlRes.timeout GotoBackRes.ok⟩] =
      Except.ok res := by
  refine c4_guarded_probe_errors_absorbed (fun _ h => h) (fun _ => "d") "d"
    "http://d/" [] _ ?_
  intro b hb
  rcases List.mem_cons.1 hb with rfl | hb
  · refine ⟨(by intro h; cases h), ?_⟩
    intro w g hwg
    cases hwg
  · rcases List.mem_cons.1 hb with rfl | hb
    · refine ⟨(by intro h; cases h), ?_⟩
      intro w g hwg
      injection hwg with hw hg
      subst hw
      subst hg
      exact ⟨(by intro h; cases h), (by intro h; cases h)⟩
    · cases hb

/-- Counterexample to C4 as stated: a single element probe whose click
navigates the page and whose restore `goto` back to the base URL then
raises a non-timeout Playwright error.  That error is raised inside the
`except PWTimeout:` handler, whose sibling `except Exception:` clause does
not cover it, so it propagates out of `_extract_links` and aborts the run
instead of being skipped. -/
theorem c4_probe_error_escapes_cex :
    extract_links (fun _ h => h) (fun _ => "d") "d" "http://d/" []
      [⟨false, PWGoto.ok, EligOutcome.proceed,
        ClickOutcome.timeoutPath (WaitUrlRes.ok "http://d/p")
          GotoBackRes.err⟩] =
      Except.error () := rfl

/-- Claim C8: when the Tier-1 static anchor scan finds more than 5 distinct
same-domain URLs, link discovery returns that set at once and Tier-2 click
probing does not run (the result does not depend on the browser behaviors
and its flag records that Tier 2 never executed); with 5 or fewer links the
call proceeds into Tier-2 probing. -/
theorem c8_tier1_threshold (urljoin : String → String → String)
    (netloc : String → String) (base_domain base_url : String)
    (hrefs : List String) (behaviors : List IterBehavior) :
    (5 < (tier1Links urljoin netloc base_domain base_url hrefs).length →
      extract_links urljoin netloc base_domain base_url hrefs behaviors =
        Except.ok (tier1Links urljoin netloc base_domain base_url hrefs,
          false)) ∧
    ((tier1Links urljoin netloc base_domain base_url hrefs).length ≤ 5 →
      extract_links urljoin netloc base_domain base_url hrefs behaviors =
        (tier2Probe netloc base_domain behaviors
          (tier1Links urljoin netloc base_domain base_url hrefs)).map
          (fun l => (l, true))) := by
  constructor
  · intro h5
    unfold extract_links
    rw [if_pos h5]
  · intro h5
    unfold extract_links
    rw [if_neg (by omega)]

/-- Witness for C8 at concrete pages: six same-domain anchors suppress
Tier 2 even when a probe behavior would error, and five anchors enter
Tier 2 (flag true). -/
theorem c8_tier1_threshold_witness :
    extract_links (fun _ h => h) (fun u => if startsWithStr "http://d/" u
        then "d" else "x") "d" "http://d/"
      ["http://d/1", "http://d/2", "http://d/3", "http://d/4", "http://d/5",
        "http://d/6"]
      [⟨true, PWGoto.failed, EligOutcome.proceed, ClickOutcome.otherExc⟩] =
      Except.ok (["http://d/1", "http://d/2", "http://d/3", "http://d/4",
        "http://d/5", "http://d/6"], false) ∧
    extract_links (fun _ h => h) (fun u => if startsWithStr "http://d/" u
        then "d" else "x") "d" "http://d/"
      ["http://d/1", "http://d/2", "http://d/3", "http://d/4", "http://d/5"]
      [] =
      Except.ok (["http://d/1", "http://d/2", "http://d/3", "http://d/4",
        "http://d/5"], true) := by
  constructor
  · have h := (c8_tier1_threshold (fun _ h => h)
      (fun u => if startsWithStr "http://d/" u then "d" else "x") "d"
      "http://d/"
      ["http://d/1", "http://d/2", "http://d/3", "http://d/4", "http://d/5",
        "http://d/6"]
      [⟨true, PWGoto.failed, EligOutcome.proceed, ClickOutcome.otherExc⟩]).1
      (by decide)
    rw [h]
    rfl
  · have h := (c8_tier1_threshold (fun _ h => h)
      (fun u => if startsWithStr "http://d/" u then "d" else "x") "d"
      "http://d/"
      ["http://d/1", "http://d/2", "http://d/3", "http://d/4", "http://d/5"]
      []).2 (by decide)
    rw [h]
    rfl

/-- Claim C9: serializing any `KBItem` with `to_dict` yields a dictionary
whose `author` field is the empty string and which carries a `user_id`
field equal to the empty string, regardless of the author value the
extractor resolved — the extracted author never reaches the output record. -/
theorem c9_to_dict_blanks_author (it : KBItem) :
    it.to_dict.author = "" ∧ it.to_dict.user_id = "" :=
  ⟨rfl, rfl⟩

/-- Claim C10: `chunk_kb_item` returns the single original item unchanged
when the content fits in the chunk size; for longer content it returns one
item per chunk produced by the splitter (so several items whenever the
splitter returns several chunks), each preserving `content_type`,
`source_url` and `author`, with the i-th title suffixed `" (Part i)"`
(1-based). -/
theorem c10_chunk_kb_item (split_text : Nat → Nat → String → List String)
    (it : KBItem) (chunk_size chunk_overlap : Nat) :
    (it.content.length ≤ chunk_size →
      chunk_kb_item split_text it chunk_size chunk_overlap = [it]) ∧
    (chunk_size < it.content.length →
      (chunk_kb_item split_text it chunk_size chunk_overlap).length =
        (split_text chunk_size chunk_overlap it.content).length ∧
      ∀ i, (chunk_kb_item split_text it chunk_size chunk_overlap)[i]? =
        ((split_text chunk_size chunk_overlap it.content)[i]?).map fun c =>
          ({ title := it.title ++ " (Part " ++ toString (i + 1) ++ ")"
             content := c
             content_type := it.content_type
             source_url := it.source_url
             author := it.author } : KBItem)) := by
  constructor
  · intro h
    simp [chunk_kb_item, h]
  · intro h
    have hn : ¬ it.content.length ≤ chunk_size := by omega
    constructor
    · simp [chunk_kb_item, hn, List.enum_length]
    · intro i
      simp only [chunk_kb_item, hn, if_false, List.getElem?_map,
        List.getElem?_enum]
      cases (split_text chunk_size chunk_overlap it.content)[i]? with
      | none => rfl
      | some c => rfl

/-- Witness for C10: content of length 6 with chunk size 2000 is returned
as the single original item; with chunk size 5 and a splitter cutting it in
two, the result has one item per chunk and the second chunk keeps the
fields and gets the Part-2 title. -/
theorem c10_chunk_kb_item_witness :
    chunk_kb_item (fun _ _ s => [⟨s.data.take 3⟩, ⟨s.data.drop 3⟩])
      ⟨"T", "abcdef", "blog", "http://d/s", none⟩ 2000 200 =
      [⟨"T", "abcdef", "blog", "http://d/s", none⟩] ∧
    (chunk_kb_item (fun _ _ s => [⟨s.data.take 3⟩, ⟨s.data.drop 3⟩])
      ⟨"T", "abcdef", "blog", "http://d/s", none⟩ 5 1).length = 2 ∧
    (chunk_kb_item (fun _ _ s => [⟨s.data.take 3⟩, ⟨s.data.drop 3⟩])
      ⟨"T", "abcdef", "blog", "http://d/s", none⟩ 5 1)[1]? =
      some ⟨"T (Part 2)", "def", "blog", "http://d/s", none⟩ := by
  refine ⟨(c10_chunk_kb_item (fun _ _ s => [⟨s.data.take 3⟩, ⟨s.data.drop 3⟩])
      ⟨"T", "abcdef", "blog", "http://d/s", none⟩ 2000 200).1 (by decide),
    ?_, ?_⟩
  · exact ((c10_chunk_kb_item (fun _ _ s => [⟨s.data.take 3⟩, ⟨s.data.drop 3⟩])
      ⟨"T", "abcdef", "blog", "http://d/s", none⟩ 5 1).2 (by decide)).1
  · have h := (((c10_chunk_kb_item
      (fun _ _ s => [⟨s.data.take 3⟩, ⟨s.data.drop 3⟩])
      ⟨"T", "abcdef", "blog", "http://d/s", none⟩ 5 1).2 (by decide)).2) 1
    rw [h]
    rfl
